import Mathlib

/-!
Verification of the HCI round-robin ACL scheduler and the module registry of a
host-side Bluetooth stack.

The scheduler definitions are a shallow embedding of
RoundRobinScheduler (round_robin_scheduler.cc / round_robin_scheduler.h):
the connection map (std::map, ordered by 16-bit handle) becomes a sorted
association list, the fragment FIFO becomes a list, 16-bit counters become Nat
reduced mod 2^16 where the source does uint16_t arithmetic, ASSERT failures and
undefined behaviour (dereferencing an end iterator) become Except errors, and
the asynchronous handler_->Post(StartRoundRobin) becomes a counter of pending
posted tasks that a separate transition consumes.

The module registry definitions embed ModuleRegistry (module.cc): instances are
irrelevant to the claims, so a module is identified by a Nat and the registry
keeps the set of started modules plus the recorded start order; the recursion
of ModuleRegistry::Start over declared dependencies is made total with fuel.
-/

namespace RRS

/-- enum ConnectionType { CLASSIC, LE } -/
inductive ConnectionType where
  | CLASSIC
  | LE
deriving DecidableEq

/-- PacketBoundaryFlag values used by BufferPacket. -/
inductive PacketBoundaryFlag where
  | FIRST_AUTOMATICALLY_FLUSHABLE
  | CONTINUING_FRAGMENT
deriving DecidableEq

/-- struct acl_queue_handler: per-connection record of the scheduler map.
The queue_down_end_ pointer is modelled as an opaque Nat identifier. -/
structure AclQueueHandler where
  connection_type : ConnectionType
  queue_down_end : Nat
  dequeue_is_registered : Bool
  number_of_sent_packets : Nat
  is_disconnected : Bool
deriving DecidableEq

/-- An ACL fragment as built by AclPacketBuilder::Create in BufferPacket. -/
structure AclFragment where
  handle : Nat
  boundary_flag : PacketBoundaryFlag
  payload : List Nat
deriving DecidableEq

/-- Errors of the embedded operations: a failed ASSERT aborts with a
diagnostic; ub marks undefined behaviour in the source (dereferencing the end
iterator of a std::map); notEnabled marks environment events whose triggering
callback is not currently registered, so they cannot occur. -/
inductive RRErr where
  | assertFail
  | ub
  | notEnabled
deriving DecidableEq

/-- uint16_t addition (the credit counters and per-connection sent counts are
uint16_t in the source). -/
def u16add (a b : Nat) : Nat := (a + b) % 65536

/-- uint16_t subtraction. -/
def u16sub (a b : Nat) : Nat := (a + 65536 - b % 65536) % 65536

/-- Lookup in the handle map (std::map::find followed by reading the value). -/
def mapLookup (k : Nat) : List (Nat × α) → Option α
  | [] => none
  | (k', v) :: rest => if k = k' then some v else mapLookup k rest

/-- Ordered insert used below mapInsert for a key that is not present. -/
def insertSorted (k : Nat) (v : α) : List (Nat × α) → List (Nat × α)
  | [] => [(k, v)]
  | (k', v') :: rest =>
    if k < k' then (k, v) :: (k', v') :: rest else (k', v') :: insertSorted k v rest

/-- std::map::insert: if the key is already present the map is unchanged (the
existing value is NOT overwritten), otherwise the pair is inserted in key
order. -/
def mapInsert (k : Nat) (v : α) (m : List (Nat × α)) : List (Nat × α) :=
  match mapLookup k m with
  | some _ => m
  | none => insertSorted k v m

/-- std::map::erase by key. -/
def mapErase (k : Nat) : List (Nat × α) → List (Nat × α)
  | [] => []
  | (k', v') :: rest => if k = k' then rest else (k', v') :: mapErase k rest

/-- Write through a map iterator: apply f to the value stored at key k. -/
def mapUpdate (k : Nat) (f : α → α) : List (Nat × α) → List (Nat × α)
  | [] => []
  | (k', v') :: rest => if k = k' then (k', f v') :: rest else (k', v') :: mapUpdate k f rest

/-- The keys of the map in iteration order. -/
def keys (m : List (Nat × α)) : List Nat := m.map Prod.fst

/-- std::next on the map iterator positioned at key k: the key stored right
after k in iteration order, or none for the end iterator. -/
def nextKey (m : List (Nat × α)) (k : Nat) : Option Nat :=
  (keys m)[(keys m).indexOf k + 1]?

/-- The scheduler state (the fields of RoundRobinScheduler).
starting_point is the key the starting_point_ iterator refers to (none for the
end iterator, which is also how the initial, never-dereferenced iterator is
modelled); pending_start_round_robin counts handler_->Post(StartRoundRobin)
tasks that have been posted but have not run yet. -/
structure RRState where
  acl_queue_handlers : List (Nat × AclQueueHandler)
  fragments_to_send : List (ConnectionType × AclFragment)
  max_acl_packet_credits : Nat
  acl_packet_credits : Nat
  le_max_acl_packet_credits : Nat
  le_acl_packet_credits : Nat
  hci_mtu : Nat
  le_hci_mtu : Nat
  enqueue_registered : Bool
  starting_point : Option Nat
  pending_start_round_robin : Nat

/-- The constructor state: both credit pools start at the controller-reported
maxima (uint16_t), the map and FIFO are empty and no enqueue is registered. -/
def initState (numAclBuffers aclMtu numLeBuffers leMtu : Nat) : RRState where
  acl_queue_handlers := []
  fragments_to_send := []
  max_acl_packet_credits := numAclBuffers % 65536
  acl_packet_credits := numAclBuffers % 65536
  le_max_acl_packet_credits := numLeBuffers % 65536
  le_acl_packet_credits := numLeBuffers % 65536
  hci_mtu := aclMtu
  le_hci_mtu := leMtu
  enqueue_registered := false
  starting_point := none
  pending_start_round_robin := 0

/-- SendNextFragment: enqueue_registered_.exchange(true), registering the
enqueue callback on the HCI queue end if it was not registered. -/
def sendNextFragment (s : RRState) : RRState :=
  { s with enqueue_registered := true }

/-- The for-loop body of StartRoundRobin visits every connection exactly once
(count = size, wrapping at end) and registers each dequeue that is not yet
registered. -/
def registerAllDequeues (m : List (Nat × AclQueueHandler)) : List (Nat × AclQueueHandler) :=
  m.map fun kv => (kv.1, { kv.2 with dequeue_is_registered := true })

/-- UnregisterAllConnections: clear dequeue_is_registered_ on every
connection. -/
def unregisterAllConnections (m : List (Nat × AclQueueHandler)) : List (Nat × AclQueueHandler) :=
  m.map fun kv => (kv.1, { kv.2 with dequeue_is_registered := false })

/-- StartRoundRobin. Early return when both pools are empty; when fragments
are pending, just SendNextFragment; otherwise normalize starting_point_ (reset
to begin() when the map has one entry or the iterator is end()), register the
dequeue of every connection, and advance starting_point_ by one with
std::next. On an empty map the final std::next(begin()) is std::next(end()),
which is undefined behaviour. -/
def startRoundRobin (s : RRState) : Except RRErr RRState :=
  if s.acl_packet_credits = 0 ∧ s.le_acl_packet_credits = 0 then .ok s
  else if s.fragments_to_send.isEmpty = false then .ok (sendNextFragment s)
  else if s.acl_queue_handlers.isEmpty then .error .ub
  else
    let sp : Option Nat :=
      if s.acl_queue_handlers.length = 1 ∨ s.starting_point = none
      then (keys s.acl_queue_handlers).head?
      else s.starting_point
    let sp' : Option Nat :=
      match sp with
      | some k => nextKey s.acl_queue_handlers k
      | none => none
    .ok { s with
          acl_queue_handlers := registerAllDequeues s.acl_queue_handlers
          starting_point := sp' }

/-- Register: insert the fresh record (std::map::insert leaves an existing
record for the handle untouched) and run StartRoundRobin when the fragment
FIFO is empty. -/
def registerConn (t : ConnectionType) (handle queue_down_end : Nat) (s : RRState) :
    Except RRErr RRState :=
  let s1 := { s with
              acl_queue_handlers :=
                mapInsert handle
                  ⟨t, queue_down_end, false, 0, false⟩ s.acl_queue_handlers }
  if s1.fragments_to_send.length = 0 then startRoundRobin s1 else .ok s1

/-- Unregister: ASSERT the handle is present; the source copies the record by
value, so clearing dequeue_is_registered_ on the copy and the external
UnregisterDequeue call leave the map value unchanged; then erase the record
and reset starting_point_ to begin(). -/
def unregisterConn (handle : Nat) (s : RRState) : Except RRErr RRState :=
  match mapLookup handle s.acl_queue_handlers with
  | none => .error .assertFail
  | some _ =>
    let m' := mapErase handle s.acl_queue_handlers
    .ok { s with acl_queue_handlers := m', starting_point := (keys m').head? }

/-- SetDisconnect. The source reads the record with
auto acl_queue_handler = acl_queue_handlers_.find(handle)->second;
which dereferences the end iterator when the handle is unknown (undefined
behaviour, there is no ASSERT here), and otherwise COPIES the record by value:
the writes to is_disconnected_ and number_of_sent_packets_ land on the local
copy, so the map entry is left entirely unchanged and only the credit pool of
the record's kind is incremented by the copied outstanding count. -/
def setDisconnect (handle : Nat) (s : RRState) : Except RRErr RRState :=
  match mapLookup handle s.acl_queue_handlers with
  | none => .error .ub
  | some c =>
    if c.connection_type = .CLASSIC then
      .ok { s with acl_packet_credits := u16add s.acl_packet_credits c.number_of_sent_packets }
    else
      .ok { s with le_acl_packet_credits :=
                     u16add s.le_acl_packet_credits c.number_of_sent_packets }

/-- Fuel-based chunking into pieces of size m+1; the fuel is always at least
the list length, so the fallback row is never taken. -/
def chunksOfGo (m : Nat) : Nat → List Nat → List (List Nat)
  | _, [] => []
  | 0, l => [l]
  | fuel + 1, l => l.take (m + 1) :: chunksOfGo m fuel (l.drop (m + 1))

/-- Modelled from the spec: the AclFragmenter implementation
(acl_fragmenter.cc) is not under src/; the spec says an over-MTU payload is
split into MTU-sized pieces, so GetFragments with mtu = m+1 chunks the payload
into consecutive pieces of at most m+1 bytes. -/
def chunksOf (m : Nat) (l : List Nat) : List (List Nat) := chunksOfGo m l.length l

/-- The fragmentation performed by BufferPacket for one payload: a payload of
at most mtu bytes (including an empty one) becomes a single
FIRST_AUTOMATICALLY_FLUSHABLE fragment; a longer payload is split by the
fragmenter (modelled from the spec, see chunksOf) with the first piece tagged
FIRST_AUTOMATICALLY_FLUSHABLE and every later piece CONTINUING_FRAGMENT.
Meaningful for mtu > 0; chunk size mtu is written (mtu-1)+1. -/
def fragmentPayload (mtu : Nat) (p : List Nat) : List (PacketBoundaryFlag × List Nat) :=
  if p.length ≤ mtu then [(.FIRST_AUTOMATICALLY_FLUSHABLE, p)]
  else
    match chunksOf (mtu - 1) p with
    | [] => []
    | c :: rest =>
      (.FIRST_AUTOMATICALLY_FLUSHABLE, c) :: rest.map fun x => (.CONTINUING_FRAGMENT, x)

/-- BufferPacket: the dequeue callback of a registered connection delivering
one payload. Look up the MTU of the connection's kind, push the fragments
(tagged with the kind) onto the FIFO, ASSERT the FIFO is non-empty, unregister
every dequeue, add the FIFO size (the source adds fragments_to_send_.size(),
the whole queue length) to the connection's outstanding count through the
iterator, and SendNextFragment. The event is only enabled while the
connection's dequeue callback is registered. -/
def bufferPacket (handle : Nat) (payload : List Nat) (s : RRState) : Except RRErr RRState :=
  match mapLookup handle s.acl_queue_handlers with
  | none => .error .notEnabled
  | some c =>
    if c.dequeue_is_registered = false then .error .notEnabled
    else
      let mtu := if c.connection_type = .CLASSIC then s.hci_mtu else s.le_hci_mtu
      let frags := (fragmentPayload mtu payload).map
        fun fp => (c.connection_type, AclFragment.mk handle fp.1 fp.2)
      let fifo' := s.fragments_to_send ++ frags
      if fifo'.length = 0 then .error .assertFail
      else
        let m' := mapUpdate handle
          (fun v => { v with number_of_sent_packets :=
                               u16add v.number_of_sent_packets fifo'.length })
          (unregisterAllConnections s.acl_queue_handlers)
        .ok (sendNextFragment { s with fragments_to_send := fifo', acl_queue_handlers := m' })

/-- The tail of HandleEnqueueNextFragment after the pool of the popped
fragment's kind has been decremented and the fragment popped: when the FIFO
drained, unregister the enqueue and post StartRoundRobin; otherwise unregister
the enqueue if the next fragment's kind has no credits left. -/
def handleEnqueueTail (s1 : RRState) : Except RRErr RRState :=
  match s1.fragments_to_send with
  | [] => .ok { s1 with enqueue_registered := false,
                        pending_start_round_robin := s1.pending_start_round_robin + 1 }
  | (t', _) :: _ =>
    if (t' = .CLASSIC ∧ s1.acl_packet_credits = 0) ∨
       (t' = .LE ∧ s1.le_acl_packet_credits = 0) then
      .ok { s1 with enqueue_registered := false }
    else .ok s1

/-- HandleEnqueueNextFragment: the HCI egress pulls the next fragment. Only
enabled while the enqueue callback is registered; front() on an empty FIFO is
undefined behaviour. ASSERT the pool of the front fragment's kind is positive
and decrement it; pop; then continue with handleEnqueueTail. -/
def handleEnqueueNextFragment (s : RRState) : Except RRErr RRState :=
  if s.enqueue_registered = false then .error .notEnabled
  else
    match s.fragments_to_send with
    | [] => .error .ub
    | (t, _) :: rest =>
      match t with
      | .CLASSIC =>
        if s.acl_packet_credits = 0 then .error .assertFail
        else handleEnqueueTail { s with acl_packet_credits := s.acl_packet_credits - 1,
                                        fragments_to_send := rest }
      | .LE =>
        if s.le_acl_packet_credits = 0 then .error .assertFail
        else handleEnqueueTail { s with le_acl_packet_credits := s.le_acl_packet_credits - 1,
                                        fragments_to_send := rest }

/-- The tail of IncomingAclCredits after the connection's outstanding count
has been decremented and the pool of its kind incremented: ASSERT both pools
are within their maxima, and run StartRoundRobin when either pool now equals
the returned credits (i.e. was empty before the return). -/
def incomingTail (credits : Nat) (s1 : RRState) : Except RRErr RRState :=
  if s1.acl_packet_credits ≤ s1.max_acl_packet_credits then
    if s1.le_acl_packet_credits ≤ s1.le_max_acl_packet_credits then
      if s1.acl_packet_credits = credits ∨ s1.le_acl_packet_credits = credits then
        startRoundRobin s1
      else .ok s1
    else .error .assertFail
  else .error .assertFail

/-- IncomingAclCredits(handle, credits): unknown or disconnected handles are
dropped with a log; otherwise subtract the credits from the connection's
outstanding count (uint16_t), add them to the pool of its kind, and continue
with incomingTail. -/
def incomingAclCredits (handle credits : Nat) (s : RRState) : Except RRErr RRState :=
  let credits := credits % 65536
  match mapLookup handle s.acl_queue_handlers with
  | none => .ok s
  | some c =>
    if c.is_disconnected then .ok s
    else
      let m' := mapUpdate handle
        (fun v => { v with number_of_sent_packets := u16sub v.number_of_sent_packets credits })
        s.acl_queue_handlers
      if c.connection_type = .CLASSIC then
        incomingTail credits
          { s with acl_queue_handlers := m',
                   acl_packet_credits := u16add s.acl_packet_credits credits }
      else
        incomingTail credits
          { s with acl_queue_handlers := m',
                   le_acl_packet_credits := u16add s.le_acl_packet_credits credits }

/-- The observable events of the scheduler: its three public operations, the
two queue callbacks, the controller's credit-return callback, and the
execution of a posted StartRoundRobin task. -/
inductive RREvent where
  | register (t : ConnectionType) (handle queue_down_end : Nat)
  | unregister (handle : Nat)
  | setDisconnect (handle : Nat)
  | bufferPacket (handle : Nat) (payload : List Nat)
  | handleEnqueueNextFragment
  | incomingAclCredits (handle credits : Nat)
  | runPostedStartRoundRobin

/-- One scheduler step. -/
def step : RREvent → RRState → Except RRErr RRState
  | .register t h q, s => registerConn t h q s
  | .unregister h, s => unregisterConn h s
  | .setDisconnect h, s => setDisconnect h s
  | .bufferPacket h p, s => bufferPacket h p s
  | .handleEnqueueNextFragment, s => handleEnqueueNextFragment s
  | .incomingAclCredits h n, s => incomingAclCredits h n s
  | .runPostedStartRoundRobin, s =>
    if s.pending_start_round_robin = 0 then .error .notEnabled
    else startRoundRobin { s with pending_start_round_robin := s.pending_start_round_robin - 1 }

/-- Run a sequence of events. -/
def run : List RREvent → RRState → Except RRErr RRState
  | [], s => .ok s
  | e :: es, s =>
    match step e s with
    | .ok s' => run es s'
    | .error err => .error err

/-- A state is reachable when some event sequence produces it from the
constructor state of some controller configuration. -/
def Reachable (s : RRState) : Prop :=
  ∃ cm cmtu lm lmtu es, run es (initState cm cmtu lm lmtu) = .ok s

/-- Sum of the outstanding-fragment counts of all connections of one kind. -/
def sumOutstanding (t : ConnectionType) (m : List (Nat × AclQueueHandler)) : Nat :=
  (m.map fun kv => if kv.2.connection_type = t then kv.2.number_of_sent_packets else 0).sum

/-- The slot index at which the next registration pass of StartRoundRobin will
effectively start, for a given map and starting_point_ value: the pass resets
the iterator to begin() when the map has exactly one entry or the iterator is
end(), and otherwise starts at the entry the iterator refers to. -/
def cursorIndex (m : List (Nat × AclQueueHandler)) (c : Option Nat) : Nat :=
  if m.length = 1 then 0
  else
    match c with
    | none => 0
    | some k => (keys m).indexOf k

/-- Every connection whose dequeue_is_registered_ flag is set coexists only
with an empty fragment FIFO. -/
def DequeueImpliesFifoEmpty (s : RRState) : Prop :=
  ∀ kv ∈ s.acl_queue_handlers,
    kv.2.dequeue_is_registered = true → s.fragments_to_send = []

/-- StartRoundRobin only newly registers a connection's dequeue in states
whose fragment FIFO is empty and where at least one credit pool (of either
kind) is strictly positive. -/
def RegistersOnlyWithCreditAndEmptyFifo : Prop :=
  ∀ s t, startRoundRobin s = .ok t →
    ∀ k c c', mapLookup k s.acl_queue_handlers = some c →
      mapLookup k t.acl_queue_handlers = some c' →
      c'.dequeue_is_registered = true →
      c.dequeue_is_registered = true ∨
        (s.fragments_to_send = [] ∧
          (0 < s.acl_packet_credits ∨ 0 < s.le_acl_packet_credits))

/-- Scenario for the claimed credit equation: classic maximum 2, one classic
connection, one emitted fragment outstanding, then SetDisconnect. -/
def c1Trace : List RREvent :=
  [.register .CLASSIC 1 0, .bufferPacket 1 [9], .handleEnqueueNextFragment, .setDisconnect 1]

/-- Scenario for credit returns after SetDisconnect: classic maximum 3, two
classic connections, connection 1 with two emitted fragments outstanding and
connection 2 with one, then SetDisconnect on connection 1. -/
def c2TracePrefix : List RREvent :=
  [.register .CLASSIC 1 0, .register .CLASSIC 2 0,
   .bufferPacket 1 [9], .handleEnqueueNextFragment, .runPostedStartRoundRobin,
   .bufferPacket 1 [9], .handleEnqueueNextFragment, .runPostedStartRoundRobin,
   .bufferPacket 2 [9], .handleEnqueueNextFragment, .setDisconnect 1]

/-- The same scenario followed by a credit return for the disconnected
connection 1. -/
def c2Trace : List RREvent := c2TracePrefix ++ [.incomingAclCredits 1 1]

/-- Scenario for the dispatch-time credit assertion: classic maximum 1, LE
maximum 1, one classic connection delivering two payloads back to back. -/
def c4Trace : List RREvent :=
  [.register .CLASSIC 1 0, .bufferPacket 1 [9], .handleEnqueueNextFragment,
   .runPostedStartRoundRobin, .bufferPacket 1 [7], .handleEnqueueNextFragment]

/-- Scenario for the dequeue-registration invariant: classic maximum 1, LE
maximum 1, one classic connection; after its fragment is emitted the posted
StartRoundRobin re-registers its dequeue although the classic pool is empty. -/
def c5Trace : List RREvent :=
  [.register .CLASSIC 1 0, .bufferPacket 1 [9], .handleEnqueueNextFragment,
   .runPostedStartRoundRobin]

/-- The spec's disconnect-reclaim scenario: two classic connections, classic
maximum 2, both credits consumed (one outstanding fragment on each handle). -/
def c3State : RRState where
  acl_queue_handlers :=
    [(1, ⟨.CLASSIC, 0, false, 1, false⟩), (2, ⟨.CLASSIC, 0, false, 1, false⟩)]
  fragments_to_send := []
  max_acl_packet_credits := 2
  acl_packet_credits := 0
  le_max_acl_packet_credits := 1
  le_acl_packet_credits := 1
  hci_mtu := 27
  le_hci_mtu := 27
  enqueue_registered := false
  starting_point := none
  pending_start_round_robin := 0

/-- A registration-pass scenario for the rotation cursor: two registered
classic connections, the cursor at the first one, credits available and an
empty FIFO. -/
def c7State : RRState where
  acl_queue_handlers :=
    [(1, ⟨.CLASSIC, 0, false, 0, false⟩), (2, ⟨.CLASSIC, 0, false, 0, false⟩)]
  fragments_to_send := []
  max_acl_packet_credits := 1
  acl_packet_credits := 1
  le_max_acl_packet_credits := 1
  le_acl_packet_credits := 1
  hci_mtu := 27
  le_hci_mtu := 27
  enqueue_registered := false
  starting_point := some 1
  pending_start_round_robin := 0

end RRS

namespace ModuleRT

/-- ASSERT failure in the module registry (module.cc). -/
inductive MErr where
  | assertFail
deriving DecidableEq

/-- The registry state (ModuleRegistry): started_modules_ is a map from
module to instance, of which the claims only need the key set, and
start_order_ records the order in which modules finished starting. Modules
are identified by Nat. started_modules lists the most recently started module
first, so it always equals start_order.reverse. -/
structure Registry where
  started_modules : List Nat
  start_order : List Nat
deriving DecidableEq

/-- The empty registry. -/
def initRegistry : Registry := ⟨[], []⟩

mutual

/-- ModuleRegistry::Start(module, thread): if the module is already started
return it; otherwise construct the instance, let it declare its dependencies
(the function deps), start those first, then invoke the module's own start
step, append it to start_order_ and record the instance. The returned list is
the order in which start steps ran. The C++ recursion has no fuel and simply
never terminates on cyclic dependencies; fuel makes the embedding total and
the theorems hold for every fuel. -/
def startModule (deps : Nat → List Nat) : Nat → Nat → Registry → List Nat × Registry
  | 0, _, s => ([], s)
  | fuel + 1, m, s =>
    if m ∈ s.started_modules then ([], s)
    else
      match startList deps fuel (deps m) s with
      | (tr, s') => (tr ++ [m], ⟨m :: s'.started_modules, s'.start_order ++ [m]⟩)

/-- ModuleRegistry::Start(ModuleList, thread): start every module of the list
in order. -/
def startList (deps : Nat → List Nat) : Nat → List Nat → Registry → List Nat × Registry
  | _, [], s => ([], s)
  | fuel, m :: ms, s =>
    match startModule deps fuel m s with
    | (tr, s') =>
      match startList deps fuel ms s' with
      | (tr', s'') => (tr ++ tr', s'')

end

/-- The loop of ModuleRegistry::StopAll over the reversed start order: ASSERT
each module is present in started_modules_, invoke its stop step (recorded in
the returned stop trace) and erase it. Returns the stop trace and the
remaining started modules. -/
def stopAllGo : List Nat → List Nat → Except MErr (List Nat × List Nat)
  | [], started => .ok ([], started)
  | m :: rest, started =>
    if m ∈ started then
      match stopAllGo rest (started.erase m) with
      | .ok (tr, rem) => .ok (m :: tr, rem)
      | .error e => .error e
    else .error .assertFail

/-- ModuleRegistry::StopAll: stop in reverse start order, ASSERT the registry
is empty afterwards, and clear the start order. Returns the order in which
stop steps ran together with the final registry. -/
def stopAll (s : Registry) : Except MErr (List Nat × Registry) :=
  match stopAllGo s.start_order.reverse s.started_modules with
  | .error e => .error e
  | .ok (tr, rem) => if rem = [] then .ok (tr, ⟨[], []⟩) else .error .assertFail

end ModuleRT

namespace RRS

theorem mem_insertSorted {α : Type} {k : Nat} {v : α} {m : List (Nat × α)} {kv : Nat × α}
    (h : kv ∈ insertSorted k v m) : kv = (k, v) ∨ kv ∈ m := by
  induction m with
  | nil => simp only [insertSorted, List.mem_singleton] at h; exact Or.inl h
  | cons hd tl ih =>
    simp only [insertSorted] at h
    split at h
    · simp only [List.mem_cons] at h
      rcases h with h | h | h
      · exact Or.inl h
      · exact Or.inr (by simp [h])
      · exact Or.inr (by simp [h])
    · simp only [List.mem_cons] at h
      rcases h with h | h
      · exact Or.inr (by simp [h])
      · rcases ih h with h' | h'
        · exact Or.inl h'
        · exact Or.inr (List.mem_cons_of_mem _ h')

theorem mem_mapInsert {α : Type} {k : Nat} {v : α} {m : List (Nat × α)} {kv : Nat × α}
    (h : kv ∈ mapInsert k v m) : kv = (k, v) ∨ kv ∈ m := by
  unfold mapInsert at h
  split at h
  · exact Or.inr h
  · exact mem_insertSorted h

theorem mem_mapErase {α : Type} {k : Nat} {m : List (Nat × α)} {kv : Nat × α}
    (h : kv ∈ mapErase k m) : kv ∈ m := by
  induction m with
  | nil => simp only [mapErase] at h; exact absurd h (List.not_mem_nil kv)
  | cons hd tl ih =>
    simp only [mapErase] at h
    split at h
    · exact List.mem_cons_of_mem _ h
    · simp only [List.mem_cons] at h
      rcases h with h | h
      · simp [h]
      · exact List.mem_cons_of_mem _ (ih h)

theorem mem_mapUpdate {α : Type} {k : Nat} {f : α → α} {m : List (Nat × α)} {kv : Nat × α}
    (h : kv ∈ mapUpdate k f m) : kv ∈ m ∨ ∃ v, (k, v) ∈ m ∧ kv = (k, f v) := by
  induction m with
  | nil => simp only [mapUpdate] at h; exact absurd h (List.not_mem_nil kv)
  | cons hd tl ih =>
    simp only [mapUpdate] at h
    split at h
    · next heq =>
      simp only [List.mem_cons] at h
      rcases h with h | h
      · right
        refine ⟨hd.2, ?_, by simp [h, ← heq]⟩
        rw [heq, Prod.mk.eta]
        exact List.mem_cons_self hd tl
      · exact Or.inl (List.mem_cons_of_mem _ h)
    · simp only [List.mem_cons] at h
      rcases h with h | h
      · exact Or.inl (by simp [h])
      · rcases ih h with h' | ⟨v, hv, hkv⟩
        · exact Or.inl (List.mem_cons_of_mem _ h')
        · exact Or.inr ⟨v, List.mem_cons_of_mem _ hv, hkv⟩

theorem mapLookup_mapVal {α : Type} (g : α → α) (k : Nat) (m : List (Nat × α)) :
    mapLookup k (m.map fun kv => (kv.1, g kv.2)) = (mapLookup k m).map g := by
  induction m with
  | nil => simp [mapLookup]
  | cons hd tl ih =>
    simp only [List.map_cons, mapLookup]
    split <;> simp [ih]

end RRS

namespace RRS

theorem flag_unregisterAll {m : List (Nat × AclQueueHandler)} {kv : Nat × AclQueueHandler}
    (h : kv ∈ unregisterAllConnections m) : kv.2.dequeue_is_registered = false := by
  simp only [unregisterAllConnections, List.mem_map] at h
  obtain ⟨a, _, rfl⟩ := h
  rfl

theorem fragments_of_isEmpty {l : List (ConnectionType × AclFragment)}
    (h : ¬ l.isEmpty = false) : l = [] := by
  cases l with
  | nil => rfl
  | cons a l => simp [List.isEmpty] at h

theorem startRoundRobin_invD {s t : RRState} (hs : DequeueImpliesFifoEmpty s)
    (hst : startRoundRobin s = .ok t) : DequeueImpliesFifoEmpty t := by
  unfold startRoundRobin at hst
  split at hst
  · injection hst with h
    subst h
    exact hs
  · split at hst
    · injection hst with h
      subst h
      intro kv hm hf
      exact hs kv hm hf
    · split at hst
      · cases hst
      · next hnf _ =>
        injection hst with h
        subst h
        intro kv _ _
        exact fragments_of_isEmpty hnf

theorem registerConn_invD {s t : RRState} {ct : ConnectionType} {h q : Nat}
    (hs : DequeueImpliesFifoEmpty s) (hst : registerConn ct h q s = .ok t) :
    DequeueImpliesFifoEmpty t := by
  unfold registerConn at hst
  have hs1 : DequeueImpliesFifoEmpty
      { s with acl_queue_handlers :=
                 mapInsert h ⟨ct, q, false, 0, false⟩ s.acl_queue_handlers } := by
    intro kv hm hf
    rcases mem_mapInsert hm with h' | h'
    · rw [h'] at hf
      cases hf
    · exact hs kv h' hf
  dsimp only at hst
  split at hst
  · exact startRoundRobin_invD hs1 hst
  · injection hst with h
    subst h
    exact hs1

theorem unregisterConn_invD {s t : RRState} {h : Nat}
    (hs : DequeueImpliesFifoEmpty s) (hst : unregisterConn h s = .ok t) :
    DequeueImpliesFifoEmpty t := by
  unfold unregisterConn at hst
  split at hst
  · cases hst
  · injection hst with h'
    subst h'
    intro kv hm hf
    exact hs kv (mem_mapErase hm) hf

theorem setDisconnect_invD {s t : RRState} {h : Nat}
    (hs : DequeueImpliesFifoEmpty s) (hst : setDisconnect h s = .ok t) :
    DequeueImpliesFifoEmpty t := by
  unfold setDisconnect at hst
  split at hst
  · cases hst
  · split at hst <;> (injection hst with h'; subst h'; exact fun kv hm hf => hs kv hm hf)

theorem bufferPacket_invD {s t : RRState} {h : Nat} {p : List Nat}
    (hst : bufferPacket h p s = .ok t) : DequeueImpliesFifoEmpty t := by
  unfold bufferPacket at hst
  split at hst
  · cases hst
  · dsimp only at hst
    split at hst
    · cases hst
    · split at hst
      · split at hst
        · cases hst
        · injection hst with h'
          subst h'
          intro kv hm hf
          exfalso
          rcases mem_mapUpdate hm with h' | ⟨v, hv, hkv⟩
          · rw [flag_unregisterAll h'] at hf
            cases hf
          · subst hkv
            have hv' := flag_unregisterAll hv
            simp only [] at hv' hf
            simp [hv'] at hf
      · split at hst
        · cases hst
        · injection hst with h'
          subst h'
          intro kv hm hf
          exfalso
          rcases mem_mapUpdate hm with h' | ⟨v, hv, hkv⟩
          · rw [flag_unregisterAll h'] at hf
            cases hf
          · subst hkv
            have hv' := flag_unregisterAll hv
            simp only [] at hv' hf
            simp [hv'] at hf

end RRS

namespace RRS

theorem handleEnqueueTail_ok {s1 t : RRState} (hst : handleEnqueueTail s1 = .ok t) :
    t.acl_queue_handlers = s1.acl_queue_handlers ∧
    t.fragments_to_send = s1.fragments_to_send := by
  unfold handleEnqueueTail at hst
  split at hst
  · injection hst with h'
    subst h'
    exact ⟨rfl, rfl⟩
  · split at hst <;> (injection hst with h'; subst h'; exact ⟨rfl, rfl⟩)

theorem handleEnqueueNextFragment_invD {s t : RRState}
    (hs : DequeueImpliesFifoEmpty s) (hst : handleEnqueueNextFragment s = .ok t) :
    DequeueImpliesFifoEmpty t := by
  unfold handleEnqueueNextFragment at hst
  split at hst
  · cases hst
  · split at hst
    · cases hst
    · next heq =>
      split at hst <;>
        (split at hst
         · cases hst
         · obtain ⟨hm1, -⟩ := handleEnqueueTail_ok hst
           intro kv hm hf
           exfalso
           rw [hm1] at hm
           have h0 := hs kv hm hf
           rw [heq] at h0
           cases h0)

theorem incomingTail_invD {n : Nat} {s1 t : RRState} (hs : DequeueImpliesFifoEmpty s1)
    (hst : incomingTail n s1 = .ok t) : DequeueImpliesFifoEmpty t := by
  unfold incomingTail at hst
  split at hst
  · split at hst
    · split at hst
      · exact startRoundRobin_invD hs hst
      · injection hst with h'
        subst h'
        exact hs
    · cases hst
  · cases hst

theorem incomingAclCredits_invD {s t : RRState} {h n : Nat}
    (hs : DequeueImpliesFifoEmpty s) (hst : incomingAclCredits h n s = .ok t) :
    DequeueImpliesFifoEmpty t := by
  unfold incomingAclCredits at hst
  split at hst
  · injection hst with h'
    subst h'
    exact hs
  · split at hst
    · injection hst with h'
      subst h'
      exact hs
    · dsimp only at hst
      split at hst <;>
        (refine incomingTail_invD ?_ hst
         intro kv hm hf
         rcases mem_mapUpdate hm with h' | ⟨v, hv, hkv⟩
         · exact hs kv h' hf
         · subst hkv
           exact hs (h, v) hv hf)

theorem step_invD {s t : RRState} {e : RREvent}
    (hs : DequeueImpliesFifoEmpty s) (hst : step e s = .ok t) :
    DequeueImpliesFifoEmpty t := by
  cases e with
  | register ct h q => exact registerConn_invD hs hst
  | unregister h => exact unregisterConn_invD hs hst
  | setDisconnect h => exact setDisconnect_invD hs hst
  | bufferPacket h p => exact bufferPacket_invD hst
  | handleEnqueueNextFragment => exact handleEnqueueNextFragment_invD hs hst
  | incomingAclCredits h n => exact incomingAclCredits_invD hs hst
  | runPostedStartRoundRobin =>
    simp only [step] at hst
    split at hst
    · cases hst
    · refine startRoundRobin_invD ?_ hst
      intro kv hm hf
      exact hs kv hm hf

theorem run_invD {es : List RREvent} {s t : RRState}
    (hs : DequeueImpliesFifoEmpty s) (hst : run es s = .ok t) :
    DequeueImpliesFifoEmpty t := by
  induction es generalizing s with
  | nil =>
    injection hst with h'
    subst h'
    exact hs
  | cons e es ih =>
    simp only [run] at hst
    split at hst
    · next s' hs' => exact ih (step_invD hs hs') hst
    · cases hst

theorem reachable_invD {s : RRState} (h : Reachable s) : DequeueImpliesFifoEmpty s := by
  obtain ⟨cm, cmtu, lm, lmtu, es, hrun⟩ := h
  refine run_invD ?_ hrun
  intro kv hm _
  cases hm

end RRS

namespace RRS

theorem chunksOfGo_nil (m fuel : Nat) : chunksOfGo m fuel [] = [] := by
  cases fuel <;> rfl

theorem chunksOfGo_flatten (m : Nat) :
    ∀ (fuel : Nat) (l : List Nat), l.length ≤ fuel → (chunksOfGo m fuel l).flatten = l := by
  intro fuel
  induction fuel with
  | zero =>
    intro l hl
    have h0 : l = [] := List.eq_nil_of_length_eq_zero (Nat.le_zero.mp hl)
    subst h0
    rfl
  | succ fuel ih =>
    intro l hl
    cases l with
    | nil => rfl
    | cons a l =>
      show (((a :: l).take (m + 1)) :: chunksOfGo m fuel ((a :: l).drop (m + 1))).flatten
           = a :: l
      rw [List.flatten_cons, ih _ (by rw [List.length_drop]; simp at hl ⊢; omega)]
      exact List.take_append_drop _ _

theorem chunksOfGo_length (m : Nat) :
    ∀ (fuel : Nat) (l : List Nat), l.length ≤ fuel →
      (chunksOfGo m fuel l).length = (l.length + m) / (m + 1) := by
  intro fuel
  induction fuel with
  | zero =>
    intro l hl
    have h0 : l = [] := List.eq_nil_of_length_eq_zero (Nat.le_zero.mp hl)
    subst h0
    rw [chunksOfGo_nil]
    simp [Nat.div_eq_of_lt (show m < m + 1 by omega)]
  | succ fuel ih =>
    intro l hl
    cases l with
    | nil =>
      rw [chunksOfGo_nil]
      simp [Nat.div_eq_of_lt (show m < m + 1 by omega)]
    | cons a l =>
      show (((a :: l).take (m + 1)) :: chunksOfGo m fuel ((a :: l).drop (m + 1))).length = _
      rw [List.length_cons, ih _ (by rw [List.length_drop]; simp at hl ⊢; omega)]
      rw [List.length_drop, List.length_cons]
      rcases le_or_lt l.length m with hc | hc
      · rw [show l.length + 1 - (m + 1) = 0 from by omega, Nat.zero_add,
            Nat.div_eq_of_lt (by omega),
            @Nat.div_eq_of_lt_le 1 (m + 1) (l.length + 1 + m) (by omega) (by omega)]
      · rw [show l.length + 1 - (m + 1) + m = l.length from by omega,
            show l.length + 1 + m = l.length + (m + 1) from by omega,
            Nat.add_div_right _ (by omega)]

theorem chunksOf_flatten (m : Nat) (l : List Nat) : (chunksOf m l).flatten = l :=
  chunksOfGo_flatten m l.length l le_rfl

theorem chunksOf_length (m : Nat) (l : List Nat) :
    (chunksOf m l).length = (l.length + m) / (m + 1) :=
  chunksOfGo_length m l.length l le_rfl

theorem chunksOf_ne_nil (m : Nat) {l : List Nat} (h : l ≠ []) : chunksOf m l ≠ [] := by
  cases l with
  | nil => exact absurd rfl h
  | cons a l =>
    intro hc
    rw [show chunksOf m (a :: l)
          = (a :: l).take (m + 1) :: chunksOfGo m l.length ((a :: l).drop (m + 1)) from rfl] at hc
    cases hc

end RRS

namespace RRS

theorem keys_registerAllDequeues (m : List (Nat × AclQueueHandler)) :
    keys (registerAllDequeues m) = keys m := by
  simp [keys, registerAllDequeues, List.map_map, Function.comp]

theorem length_registerAllDequeues (m : List (Nat × AclQueueHandler)) :
    (registerAllDequeues m).length = m.length := by
  simp [registerAllDequeues]

theorem length_keys (m : List (Nat × AclQueueHandler)) : (keys m).length = m.length := by
  simp [keys]

theorem cursorIndex_registerAll (m : List (Nat × AclQueueHandler)) (c : Option Nat) :
    cursorIndex (registerAllDequeues m) c = cursorIndex m c := by
  unfold cursorIndex
  rw [keys_registerAllDequeues, length_registerAllDequeues]

theorem cursor_advance (m : List (Nat × AclQueueHandler)) (c : Option Nat)
    (hne : m ≠ []) (hnodup : (keys m).Nodup) (hmem : ∀ k, c = some k → k ∈ keys m) :
    cursorIndex m
      (match (if m.length = 1 ∨ c = none then (keys m).head? else c) with
       | some k => nextKey m k
       | none => none)
    = (cursorIndex m c + 1) % m.length := by
  have hlen : (keys m).length = m.length := length_keys m
  have hklne : keys m ≠ [] := by
    intro hc
    apply hne
    have hc' := congrArg List.length hc
    rw [hlen] at hc'
    exact List.eq_nil_of_length_eq_zero hc'
  have hn0 : 0 < m.length := by
    cases m with
    | nil => exact absurd rfl hne
    | cons a l => simp
  by_cases hn1 : m.length = 1
  · obtain ⟨k0, hk0⟩ := List.length_eq_one.mp (by rw [hlen]; exact hn1)
    rw [if_pos (Or.inl hn1), hk0, List.head?_cons]
    show cursorIndex m (nextKey m k0) = _
    rw [show nextKey m k0 = none from by
      unfold nextKey
      rw [hk0, List.indexOf_cons_self]
      rfl]
    simp [cursorIndex, hn1]
  · have hn2 : 2 ≤ m.length := by omega
    by_cases hnone : c = none
    · obtain ⟨k0, ktl, hk0⟩ := List.exists_cons_of_ne_nil hklne
      rw [if_pos (Or.inr hnone), hnone, hk0, List.head?_cons]
      show cursorIndex m (nextKey m k0) = _
      have h1lt : 1 < (keys m).length := by omega
      rw [show nextKey m k0 = some ((keys m)[1]) from by
        unfold nextKey
        conv in List.indexOf k0 (keys m) => rw [hk0]
        rw [List.indexOf_cons_self, Nat.zero_add]
        exact List.getElem?_eq_getElem h1lt]
      unfold cursorIndex
      rw [if_neg hn1, if_neg hn1]
      show (keys m).indexOf (keys m)[1] = (0 + 1) % m.length
      rw [List.indexOf_getElem hnodup 1 h1lt, Nat.zero_add, Nat.mod_eq_of_lt (by omega)]
    · obtain ⟨k, hk⟩ := Option.ne_none_iff_exists.mp hnone
      rw [← hk] at hmem ⊢
      rw [if_neg (by
        push_neg
        exact ⟨hn1, Option.some_ne_none k⟩)]
      show cursorIndex m (nextKey m k) = _
      have hkm : k ∈ keys m := hmem k rfl
      have hi : (keys m).indexOf k < (keys m).length := List.indexOf_lt_length.mpr hkm
      by_cases hlast : (keys m).indexOf k + 1 < (keys m).length
      · rw [show nextKey m k = some ((keys m)[(keys m).indexOf k + 1]) from by
          unfold nextKey
          exact List.getElem?_eq_getElem hlast]
        unfold cursorIndex
        rw [if_neg hn1, if_neg hn1]
        show (keys m).indexOf (keys m)[(keys m).indexOf k + 1]
            = ((keys m).indexOf k + 1) % m.length
        rw [List.indexOf_getElem hnodup _ hlast, Nat.mod_eq_of_lt (by omega)]
      · rw [show nextKey m k = none from by
          unfold nextKey
          exact List.getElem?_eq_none (by omega)]
        unfold cursorIndex
        rw [if_neg hn1, if_neg hn1]
        show 0 = ((keys m).indexOf k + 1) % m.length
        rw [show (keys m).indexOf k + 1 = m.length from by omega, Nat.mod_self]

end RRS

namespace RRS

theorem startRoundRobin_lookup {s t : RRState} (hst : startRoundRobin s = .ok t) (k : Nat) :
    mapLookup k t.acl_queue_handlers = mapLookup k s.acl_queue_handlers ∨
    (mapLookup k t.acl_queue_handlers
       = (mapLookup k s.acl_queue_handlers).map
           (fun c => { c with dequeue_is_registered := true })
     ∧ s.fragments_to_send = []
     ∧ ¬ (s.acl_packet_credits = 0 ∧ s.le_acl_packet_credits = 0)) := by
  unfold startRoundRobin at hst
  split at hst
  · injection hst with h'
    subst h'
    exact Or.inl rfl
  · split at hst
    · injection hst with h'
      subst h'
      exact Or.inl rfl
    · split at hst
      · cases hst
      · next hcred hnf _ =>
        injection hst with h'
        subst h'
        refine Or.inr ⟨?_, fragments_of_isEmpty hnf, hcred⟩
        exact mapLookup_mapVal (fun c => { c with dequeue_is_registered := true }) k
          s.acl_queue_handlers

theorem registersOnly : RegistersOnlyWithCreditAndEmptyFifo := by
  intro s t hst k c c' hc hc' hflag
  rcases startRoundRobin_lookup hst k with h | ⟨h, hfifo, hcred⟩
  · rw [hc] at h
    rw [h] at hc'
    injection hc' with h'
    subst h'
    exact Or.inl hflag
  · refine Or.inr ⟨hfifo, ?_⟩
    rcases Nat.eq_zero_or_pos s.acl_packet_credits with h0 | h0
    · rcases Nat.eq_zero_or_pos s.le_acl_packet_credits with h1 | h1
      · exact absurd ⟨h0, h1⟩ hcred
      · exact Or.inr h1
    · exact Or.inl h0

theorem startRoundRobin_lookup_fields {s t : RRState} (hst : startRoundRobin s = .ok t)
    {k : Nat} {c : AclQueueHandler} (hc : mapLookup k s.acl_queue_handlers = some c) :
    ∃ c', mapLookup k t.acl_queue_handlers = some c'
      ∧ c'.connection_type = c.connection_type
      ∧ c'.queue_down_end = c.queue_down_end
      ∧ c'.number_of_sent_packets = c.number_of_sent_packets
      ∧ c'.is_disconnected = c.is_disconnected := by
  rcases startRoundRobin_lookup hst k with h | ⟨h, -, -⟩
  · rw [hc] at h
    exact ⟨c, h, rfl, rfl, rfl, rfl⟩
  · rw [hc] at h
    exact ⟨{ c with dequeue_is_registered := true }, h, rfl, rfl, rfl, rfl⟩

end RRS

namespace ModuleRT

theorem start_inv (deps : Nat → List Nat) :
    ∀ fuel : Nat,
      (∀ m s, s.started_modules = s.start_order.reverse →
        ((startModule deps fuel m s).2.started_modules
           = (startModule deps fuel m s).2.start_order.reverse
         ∧ (startModule deps fuel m s).2.start_order
             = s.start_order ++ (startModule deps fuel m s).1))
      ∧ (∀ ms s, s.started_modules = s.start_order.reverse →
        ((startList deps fuel ms s).2.started_modules
           = (startList deps fuel ms s).2.start_order.reverse
         ∧ (startList deps fuel ms s).2.start_order
             = s.start_order ++ (startList deps fuel ms s).1)) := by
  intro fuel
  induction fuel with
  | zero =>
    have hP : ∀ m s, s.started_modules = s.start_order.reverse →
        ((startModule deps 0 m s).2.started_modules
           = (startModule deps 0 m s).2.start_order.reverse
         ∧ (startModule deps 0 m s).2.start_order
             = s.start_order ++ (startModule deps 0 m s).1) := by
      intro m s hs
      simp only [startModule]
      exact ⟨hs, by simp⟩
    refine ⟨hP, ?_⟩
    intro ms
    induction ms with
    | nil =>
      intro s hs
      simp only [startList]
      exact ⟨hs, by simp⟩
    | cons m ms ihms =>
      intro s hs
      rcases hsm : startModule deps 0 m s with ⟨tr, s'⟩
      rcases hsl : startList deps 0 ms s' with ⟨tr', s''⟩
      have h1 := hP m s hs
      rw [hsm] at h1
      have h2 := ihms s' h1.1
      rw [hsl] at h2
      constructor
      · simp only [startList, hsm, hsl]
        exact h2.1
      · simp only [startList, hsm, hsl]
        rw [h2.2, h1.2, List.append_assoc]
  | succ fuel ih =>
    have hP : ∀ m s, s.started_modules = s.start_order.reverse →
        ((startModule deps (fuel + 1) m s).2.started_modules
           = (startModule deps (fuel + 1) m s).2.start_order.reverse
         ∧ (startModule deps (fuel + 1) m s).2.start_order
             = s.start_order ++ (startModule deps (fuel + 1) m s).1) := by
      intro m s hs
      by_cases hmem : m ∈ s.started_modules
      · constructor
        · simp only [startModule, if_pos hmem]
          exact hs
        · simp only [startModule, if_pos hmem]
          simp
      · rcases hsl : startList deps fuel (deps m) s with ⟨tr, s'⟩
        have h := (ih.2) (deps m) s hs
        rw [hsl] at h
        constructor
        · simp only [startModule, if_neg hmem, hsl]
          rw [h.1]
          simp
        · simp only [startModule, if_neg hmem, hsl]
          rw [h.2, List.append_assoc]
    refine ⟨hP, ?_⟩
    intro ms
    induction ms with
    | nil =>
      intro s hs
      simp only [startList]
      exact ⟨hs, by simp⟩
    | cons m ms ihms =>
      intro s hs
      rcases hsm : startModule deps (fuel + 1) m s with ⟨tr, s'⟩
      rcases hsl : startList deps (fuel + 1) ms s' with ⟨tr', s''⟩
      have h1 := hP m s hs
      rw [hsm] at h1
      have h2 := ihms s' h1.1
      rw [hsl] at h2
      constructor
      · simp only [startList, hsm, hsl]
        exact h2.1
      · simp only [startList, hsm, hsl]
        rw [h2.2, h1.2, List.append_assoc]

theorem stopAllGo_self : ∀ l : List Nat, stopAllGo l l = .ok (l, []) := by
  intro l
  induction l with
  | nil => rfl
  | cons m rest ih =>
    simp only [stopAllGo, if_pos (List.mem_cons_self m rest), List.erase_cons_head, ih]

theorem stopAll_of_inv (s : Registry) (hs : s.started_modules = s.start_order.reverse) :
    stopAll s = .ok (s.start_order.reverse, ⟨[], []⟩) := by
  unfold stopAll
  rw [hs, stopAllGo_self]
  rfl

end ModuleRT

namespace RRS

theorem startRoundRobin_ok {s : RRState} (hne : s.acl_queue_handlers ≠ []) :
    ∃ t, startRoundRobin s = .ok t := by
  unfold startRoundRobin
  split
  · exact ⟨_, rfl⟩
  · split
    · exact ⟨_, rfl⟩
    · split
      · next hemp => exact absurd (by simpa using hemp) hne
      · exact ⟨_, rfl⟩

/-- Claim C1: the spec states that for each connection kind, available credits
plus the summed per-connection outstanding-fragment counts equal the kind's
maximum, and that every scheduler operation preserves this equation. The code
violates it: SetDisconnect copies the map record by value, so it adds the
outstanding count to the credit pool without zeroing the per-connection count.
After registering one classic connection (maximum 2), emitting one fragment
and calling SetDisconnect, the classic pool holds 2 credits while the
connection still records 1 outstanding fragment: 2 + 1 = 3 is not the maximum
2. -/
theorem claim_c1_credit_equation_broken :
    (run c1Trace (initState 2 27 1 27)).map (fun s =>
      (s.acl_packet_credits + sumOutstanding .CLASSIC s.acl_queue_handlers,
       s.max_acl_packet_credits)) = .ok (3, 2)
    ∧ (3 : Nat) ≠ 2 :=
  ⟨rfl, by decide⟩

/-- Claim C2: the spec states that after SetDisconnect(h) every subsequent
IncomingAclCredits(h, n) is discarded, leaving pools and outstanding counts
unchanged. The code violates it: SetDisconnect sets is_disconnected_ on a
local copy of the record, so the map entry still reads false and the credit
return is applied. In the scenario (classic maximum 3, connection 1 with two
outstanding fragments reclaimed by SetDisconnect, pool at 2), the subsequent
IncomingAclCredits(1, 1) moves the pool from 2 to 3 and the outstanding count
from 2 to 1 instead of leaving both unchanged. -/
theorem claim_c2_disconnected_credits_applied :
    ((run c2TracePrefix (initState 3 27 1 27)).map (fun s =>
       (s.acl_packet_credits,
        (mapLookup 1 s.acl_queue_handlers).map (·.number_of_sent_packets),
        (mapLookup 1 s.acl_queue_handlers).map (·.is_disconnected)))
      = .ok (2, some 2, some false))
    ∧ ((run c2Trace (initState 3 27 1 27)).map (fun s =>
       (s.acl_packet_credits,
        (mapLookup 1 s.acl_queue_handlers).map (·.number_of_sent_packets)))
      = .ok (3, some 1)) :=
  ⟨rfl, rfl⟩

/-- Claim C3: for every registered handle, SetDisconnect immediately adds that
connection's outstanding-fragment count to the credit pool of its own kind
(classic or LE) and leaves the pool of the other kind unchanged; the map and
the fragment FIFO are untouched. -/
theorem claim_c3_setDisconnect_reclaims {s : RRState} {h : Nat} {c : AclQueueHandler}
    (hk : mapLookup h s.acl_queue_handlers = some c) :
    ∃ s', setDisconnect h s = .ok s'
      ∧ s'.acl_packet_credits
          = (if c.connection_type = .CLASSIC
             then u16add s.acl_packet_credits c.number_of_sent_packets
             else s.acl_packet_credits)
      ∧ s'.le_acl_packet_credits
          = (if c.connection_type = .LE
             then u16add s.le_acl_packet_credits c.number_of_sent_packets
             else s.le_acl_packet_credits)
      ∧ s'.acl_queue_handlers = s.acl_queue_handlers
      ∧ s'.fragments_to_send = s.fragments_to_send
      ∧ s'.max_acl_packet_credits = s.max_acl_packet_credits
      ∧ s'.le_max_acl_packet_credits = s.le_max_acl_packet_credits := by
  have hred : setDisconnect h s
      = (if c.connection_type = .CLASSIC
         then .ok { s with acl_packet_credits
                             := u16add s.acl_packet_credits c.number_of_sent_packets }
         else .ok { s with le_acl_packet_credits
                             := u16add s.le_acl_packet_credits c.number_of_sent_packets }) := by
    unfold setDisconnect
    rw [hk]
  rw [hred]
  by_cases hct : c.connection_type = .CLASSIC
  · rw [if_pos hct]
    refine ⟨_, rfl, ?_, ?_, rfl, rfl, rfl, rfl⟩
    · rw [if_pos hct]
    · rw [if_neg (by rw [hct]; intro hc; cases hc)]
  · rw [if_neg hct]
    have hle : c.connection_type = .LE := by
      cases hcc : c.connection_type
      · exact absurd hcc hct
      · rfl
    refine ⟨_, rfl, ?_, ?_, rfl, rfl, rfl, rfl⟩
    · rw [if_neg hct]
    · rw [if_pos hle]

theorem claim_c3_witness :
    ∃ s', setDisconnect 1 c3State = .ok s'
      ∧ s'.acl_packet_credits = 1
      ∧ s'.le_acl_packet_credits = 1
      ∧ s'.acl_queue_handlers = c3State.acl_queue_handlers := by
  obtain ⟨s', h1, h2, h3, h4, -, -, -⟩ :=
    claim_c3_setDisconnect_reclaims
      (show mapLookup 1 c3State.acl_queue_handlers
          = some ⟨.CLASSIC, 0, false, 1, false⟩ from rfl)
  refine ⟨s', h1, ?_, ?_, h4⟩
  · rw [h2]
    rfl
  · rw [h3]
    rfl

/-- Claim C4: the spec states that whenever HandleEnqueueNextFragment pops the
front of the fragment FIFO, the credit pool matching the fragment's kind is
strictly positive, i.e. the credit-underflow ASSERT never fires in a reachable
state. The code violates it: with classic maximum 1 and LE maximum 1, after a
classic connection's single fragment consumes the classic pool, the posted
StartRoundRobin re-registers the connection's dequeue (its guard only needs
SOME pool to be positive, and the LE pool is), a second classic payload is
buffered, the enqueue is registered, and the next pull reaches
ASSERT(acl_packet_credits_ > 0) with an empty classic pool. -/
theorem claim_c4_dispatch_assert_fires :
    run c4Trace (initState 1 27 1 27) = .error .assertFail :=
  rfl

/-- Counterexample to claim C5 as stated: a reachable state (classic and LE
maxima 1; register a classic connection, buffer and emit one fragment, then
run the posted StartRoundRobin) in which the classic connection's dequeue is
registered while the credit pool of its own kind is 0 (only the LE pool is
positive). -/
theorem claim_c5_counterexample :
    (run c5Trace (initState 1 27 1 27)).map (fun s =>
      (s.acl_packet_credits, s.fragments_to_send,
       (mapLookup 1 s.acl_queue_handlers).map
         fun c => (c.dequeue_is_registered, c.connection_type)))
    = .ok (0, [], some (true, .CLASSIC)) :=
  rfl

/-- Claim C5 (amended): in every reachable scheduler state, every connection
whose dequeue-registered flag is set coexists with an empty fragment FIFO; and
StartRoundRobin only newly registers a dequeue in states whose fragment FIFO
is empty and where at least one credit pool of EITHER kind (not necessarily
the connection's own kind) is strictly positive. -/
theorem claim_c5_amended {s : RRState} (hs : Reachable s) :
    DequeueImpliesFifoEmpty s ∧ RegistersOnlyWithCreditAndEmptyFifo :=
  ⟨reachable_invD hs, registersOnly⟩

theorem claim_c5_witness :
    DequeueImpliesFifoEmpty (initState 1 27 1 27) ∧ RegistersOnlyWithCreditAndEmptyFifo :=
  claim_c5_amended ⟨1, 27, 1, 27, [], rfl⟩

/-- Claim C6: for a payload of length L and MTU M of the connection's kind,
BufferPacket produces exactly ceil(max(1,L)/M) fragments whose payloads
concatenate back to the original payload; the first fragment carries
FIRST_AUTOMATICALLY_FLUSHABLE and every later one CONTINUING_FRAGMENT; a
zero-length payload yields exactly one zero-length
FIRST_AUTOMATICALLY_FLUSHABLE fragment. (The over-MTU splitting is performed
by the AclFragmenter, modelled from the spec in chunksOf.) -/
theorem claim_c6_fragmentation (mtu : Nat) (p : List Nat) (hmtu : 0 < mtu) :
    (fragmentPayload mtu p).length = (max 1 p.length + mtu - 1) / mtu
    ∧ ((fragmentPayload mtu p).map Prod.snd).flatten = p
    ∧ (fragmentPayload mtu p).head?.map Prod.fst
        = some PacketBoundaryFlag.FIRST_AUTOMATICALLY_FLUSHABLE
    ∧ (∀ fp ∈ (fragmentPayload mtu p).tail, fp.1 = PacketBoundaryFlag.CONTINUING_FRAGMENT)
    ∧ (p = [] → fragmentPayload mtu p
        = [(PacketBoundaryFlag.FIRST_AUTOMATICALLY_FLUSHABLE, [])]) := by
  unfold fragmentPayload
  by_cases hle : p.length ≤ mtu
  · rw [if_pos hle]
    refine ⟨?_, by simp, by simp, by simp, by intro h; rw [h]⟩
    rcases Nat.eq_zero_or_pos p.length with h0 | h0
    · rw [h0]
      rw [show max 1 0 = 1 from rfl, show 1 + mtu - 1 = mtu from by omega,
          Nat.div_self hmtu]
      rfl
    · rw [Nat.max_eq_right h0]
      rw [List.length_singleton]
      symm
      exact @Nat.div_eq_of_lt_le 1 mtu (p.length + mtu - 1) (by omega) (by omega)
  · rw [if_neg hle]
    have hp : p ≠ [] := by
      intro h
      rw [h] at hle
      simp at hle
    obtain ⟨c, rest, hcr⟩ := List.exists_cons_of_ne_nil (chunksOf_ne_nil (mtu - 1) hp)
    rw [hcr]
    have hlen : (c :: rest).length = (p.length + (mtu - 1)) / (mtu - 1 + 1) := by
      rw [← hcr, chunksOf_length]
    have hflat : (c :: rest).flatten = p := by rw [← hcr, chunksOf_flatten]
    refine ⟨?_, ?_, by simp, by simp, by intro h; exact absurd h hp⟩
    · rw [show mtu - 1 + 1 = mtu from by omega] at hlen
      rw [List.length_cons, List.length_map]
      rw [Nat.max_eq_right (by omega : 1 ≤ p.length)]
      rw [show p.length + mtu - 1 = p.length + (mtu - 1) from by omega]
      rw [← hlen, List.length_cons]
    · rw [show ((PacketBoundaryFlag.FIRST_AUTOMATICALLY_FLUSHABLE, c)
            :: rest.map fun x => (PacketBoundaryFlag.CONTINUING_FRAGMENT, x)).map Prod.snd
          = c :: rest from by simp]
      exact hflat

theorem claim_c6_witness :
    0 < 3
    ∧ (fragmentPayload 3 [1, 2, 3, 4, 5, 6, 7]).length = 3
    ∧ ((fragmentPayload 3 [1, 2, 3, 4, 5, 6, 7]).map Prod.snd).flatten = [1, 2, 3, 4, 5, 6, 7]
    ∧ fragmentPayload 3 ([] : List Nat)
        = [(PacketBoundaryFlag.FIRST_AUTOMATICALLY_FLUSHABLE, [])] := by
  have h7 := claim_c6_fragmentation 3 [1, 2, 3, 4, 5, 6, 7] (by decide)
  have h0 := claim_c6_fragmentation 3 [] (by decide)
  exact ⟨by decide, by rw [h7.1]; decide, h7.2.1, h0.2.2.2.2 rfl⟩

end RRS

namespace RRS

/-- Claim C7: for a non-empty connection map, a registration pass of
StartRoundRobin (reached with an empty fragment FIFO and at least one credit
available) advances the rotation cursor by exactly one position modulo the
number of registered connections, relative to the slot where the pass
effectively started. The cursor is measured by cursorIndex, the slot at which
the next pass will start; the hypotheses that the keys are distinct and that
the iterator points into the map hold for every map std::map can produce. -/
theorem claim_c7_cursor_advances_one (s : RRState)
    (hcred : ¬ (s.acl_packet_credits = 0 ∧ s.le_acl_packet_credits = 0))
    (hfifo : s.fragments_to_send = [])
    (hne : s.acl_queue_handlers ≠ [])
    (hnodup : (keys s.acl_queue_handlers).Nodup)
    (hcur : ∀ k, s.starting_point = some k → k ∈ keys s.acl_queue_handlers) :
    ∃ t, startRoundRobin s = .ok t ∧
      keys t.acl_queue_handlers = keys s.acl_queue_handlers ∧
      cursorIndex t.acl_queue_handlers t.starting_point
        = (cursorIndex s.acl_queue_handlers s.starting_point + 1)
            % s.acl_queue_handlers.length := by
  have hok : startRoundRobin s = .ok
      { s with acl_queue_handlers := registerAllDequeues s.acl_queue_handlers,
               starting_point :=
                 match (if s.acl_queue_handlers.length = 1 ∨ s.starting_point = none
                        then (keys s.acl_queue_handlers).head? else s.starting_point) with
                 | some k => nextKey s.acl_queue_handlers k
                 | none => none } := by
    unfold startRoundRobin
    rw [if_neg hcred, hfifo]
    rw [if_neg (by simp)]
    rw [if_neg (by simp [hne])]
  refine ⟨_, hok, keys_registerAllDequeues _, ?_⟩
  show cursorIndex (registerAllDequeues s.acl_queue_handlers) _ = _
  rw [cursorIndex_registerAll]
  exact cursor_advance s.acl_queue_handlers s.starting_point hne hnodup hcur

theorem claim_c7_witness :
    ∃ t, startRoundRobin c7State = .ok t ∧
      cursorIndex t.acl_queue_handlers t.starting_point = 1 := by
  obtain ⟨t, h1, -, h3⟩ :=
    claim_c7_cursor_advances_one c7State (by decide) rfl (by decide) (by decide)
      (by
        intro k hk
        have hk' : some 1 = some k := hk
        injection hk' with h
        subst h
        decide)
  refine ⟨t, h1, ?_⟩
  rw [h3]
  rfl

/-- Claim C9 counterexample: SetDisconnect on a handle absent from the
connection map does not fail the way a checked contract violation (an ASSERT,
as in Unregister) does: it dereferences the end iterator returned by
std::map::find, which is undefined behaviour with no diagnostic. -/
theorem claim_c9_counterexample :
    ¬ (setDisconnect 5 (initState 2 27 1 27) = .error .assertFail) := by
  intro hcontra
  have h0 : setDisconnect 5 (initState 2 27 1 27) = .error .ub := rfl
  rw [h0] at hcontra
  injection hcontra with h1
  cases h1

/-- Claim C9 (amended): for every handle absent from the connection map,
SetDisconnect dereferences the end iterator of the map (undefined behaviour);
it neither proceeds normally nor silently returns, but it is not a checked
assertion failure with a diagnostic either. -/
theorem claim_c9_amended {s : RRState} {h : Nat}
    (hk : mapLookup h s.acl_queue_handlers = none) :
    setDisconnect h s = .error .ub := by
  unfold setDisconnect
  rw [hk]

theorem claim_c9_witness :
    setDisconnect 5 (initState 2 27 1 27) = .error .ub :=
  claim_c9_amended rfl

/-- Claim C10: registering a handle that is already in the connection map
leaves the existing record entirely unchanged — std::map::insert does not
overwrite, so the kind, queue endpoint, outstanding count and disconnected
flag are preserved — raises no error, and the call behaves exactly like a
plain StartRoundRobin trigger when the fragment FIFO is empty (and is a no-op
otherwise). -/
theorem claim_c10_reregister_keeps_record {s : RRState} {t' : ConnectionType}
    {h q' : Nat} {c : AclQueueHandler}
    (hk : mapLookup h s.acl_queue_handlers = some c) :
    registerConn t' h q' s
      = (if s.fragments_to_send.length = 0 then startRoundRobin s else .ok s)
    ∧ ∃ s' c', registerConn t' h q' s = .ok s'
        ∧ mapLookup h s'.acl_queue_handlers = some c'
        ∧ c'.connection_type = c.connection_type
        ∧ c'.queue_down_end = c.queue_down_end
        ∧ c'.number_of_sent_packets = c.number_of_sent_packets
        ∧ c'.is_disconnected = c.is_disconnected := by
  have hins : mapInsert h ⟨t', q', false, 0, false⟩ s.acl_queue_handlers
      = s.acl_queue_handlers := by
    unfold mapInsert
    rw [hk]
  have h1 : registerConn t' h q' s
      = (if s.fragments_to_send.length = 0 then startRoundRobin s else .ok s) := by
    unfold registerConn
    rw [hins]
  refine ⟨h1, ?_⟩
  by_cases hf : s.fragments_to_send.length = 0
  · have hne : s.acl_queue_handlers ≠ [] := by
      intro hc
      rw [hc] at hk
      cases hk
    obtain ⟨u, hu⟩ := startRoundRobin_ok hne
    obtain ⟨c', hc', h2, h3, h4, h5⟩ := startRoundRobin_lookup_fields hu hk
    refine ⟨u, c', ?_, hc', h2, h3, h4, h5⟩
    rw [h1, if_pos hf]
    exact hu
  · refine ⟨s, c, ?_, hk, rfl, rfl, rfl, rfl⟩
    rw [h1, if_neg hf]

theorem claim_c10_witness :
    ∃ s' c', registerConn .LE 1 99 c3State = .ok s'
      ∧ mapLookup 1 s'.acl_queue_handlers = some c'
      ∧ c'.connection_type = .CLASSIC
      ∧ c'.queue_down_end = 0
      ∧ c'.number_of_sent_packets = 1
      ∧ c'.is_disconnected = false := by
  obtain ⟨-, s', c', h2, h3, h4, h5, h6, h7⟩ :=
    claim_c10_reregister_keeps_record
      (show mapLookup 1 c3State.acl_queue_handlers
          = some ⟨.CLASSIC, 0, false, 1, false⟩ from rfl)
  exact ⟨s', c', h2, h3, h4, h5, h6, h7⟩

end RRS

namespace ModuleRT

/-- Claim C8: for every dependency function, fuel and start list, after
starting modules from the empty registry, StopAll invokes the stop steps in
exactly the reverse of the order in which the start steps ran, and afterwards
the registry holds no instances and the recorded start order is empty
(stopAll returns the initial empty registry). The recorded start order always
equals the start-step trace. -/
theorem claim_c8_stop_reverse_start (deps : Nat → List Nat) (fuel : Nat) (ms : List Nat) :
    stopAll (startList deps fuel ms initRegistry).2
      = .ok ((startList deps fuel ms initRegistry).1.reverse, initRegistry)
    ∧ (startList deps fuel ms initRegistry).2.start_order
        = (startList deps fuel ms initRegistry).1 := by
  have h := (start_inv deps fuel).2 ms initRegistry rfl
  have hord : (startList deps fuel ms initRegistry).2.start_order
      = (startList deps fuel ms initRegistry).1 := by
    have h2 := h.2
    simpa using h2
  refine ⟨?_, hord⟩
  rw [stopAll_of_inv _ h.1, hord]
  rfl

end ModuleRT
